import Mathlib

/-!
Verification of the identifier codec of `anthol-common`
(`src/id.rs` for the catalog `Id`, `src/actor/id.rs` for `ActorId`).

Byte buffers are modelled as `Nat → Nat` functions during packing (the Rust
code mutates a fixed-size `[u8; N]` array in place; a functional update model
is equivalent because every write is an in-bounds indexed store), and are then
materialised to a `List Nat` of the array's length.  All `u8` arithmetic keeps
the source's wrapping semantics explicit via `% 256`.
-/

namespace Anthol

/-- Functional model of `bytes[i] |= v` on a byte array: all writes in the
source OR an (already truncated) value into one cell. -/
def orB (bs : Nat → Nat) (i v : Nat) : Nat → Nat :=
  fun j => if j = i then bs i ||| v else bs j

/-- One iteration of the packing loop body shared by `Id::from_str_core` and
`ActorId::from_str_core`: for character index `i` (so `bit_position = i*6`),
`bytes[byte_index] |= value << bit_offset` (a `u8` shift, hence `% 256`) and,
when `bit_offset > 2`, `bytes[byte_index + 1] |= value >> (8 - bit_offset)`.
`off` is the start of the packed region (0 for `Id`, 3 for `ActorId`). -/
def packStep (off : Nat) (bs : Nat → Nat) (i v : Nat) : Nat → Nat :=
  if 2 < 6 * i % 8 then
    orB (orB bs (6 * i / 8 + off) ((v <<< (6 * i % 8)) % 256))
      (6 * i / 8 + off + 1) (v >>> (8 - 6 * i % 8))
  else orB bs (6 * i / 8 + off) ((v <<< (6 * i % 8)) % 256)

/-- The packing loop over a list of 6-bit codes, starting at character
index `i`. -/
def packAux (off : Nat) : List Nat → Nat → (Nat → Nat) → (Nat → Nat)
  | [], _, bs => bs
  | v :: rest, i, bs => packAux off rest (i + 1) (packStep off bs i v)

/-- The all-zero buffer `[0u8; N]` the encoders start from. -/
def zeroBuf : Nat → Nat := fun _ => 0

/-- The 6-bit code read back at character index `i`, as computed by the
`Display` implementations: `byte[b] >> r`, OR-ed with `byte[b+1] << (8-r)`
(a `u8` shift) when `r > 2`, masked with `CHAR_MASK = 0b0011_1111`. -/
def getCodeF (off : Nat) (g : Nat → Nat) (i : Nat) : Nat :=
  if 6 * i % 8 ≤ 2 then (g (6 * i / 8 + off) >>> (6 * i % 8)) &&& 63
  else ((g (6 * i / 8 + off) >>> (6 * i % 8)) |||
    ((g (6 * i / 8 + off + 1) <<< (8 - 6 * i % 8)) % 256)) &&& 63

/-- Closed form for byte `d` of the packed region produced by packing the
code list `cs` (each code `< 64`) from character index 0: within each
24-bit group `m` (characters `4m..4m+3`, bytes `3m..3m+2`) the three bytes
are determined by the four codes. -/
def pbyte (cs : List Nat) (d : Nat) : Nat :=
  if d % 3 = 0 then
    cs.getD (4 * (d / 3)) 0 + 64 * (cs.getD (4 * (d / 3) + 1) 0 % 4)
  else if d % 3 = 1 then
    cs.getD (4 * (d / 3) + 1) 0 / 4 + 16 * (cs.getD (4 * (d / 3) + 2) 0 % 16)
  else cs.getD (4 * (d / 3) + 2) 0 / 16 + 4 * cs.getD (4 * (d / 3) + 3) 0

/-- Model of Rust `u8::to_ascii_lowercase` (applied char-wise by
`str::to_ascii_lowercase` in `Id::from_str_core`): ASCII upper-case letters
are shifted down into `a..z`, every other character is unchanged. -/
def asciiToLower (c : Char) : Char :=
  if 65 ≤ c.toNat ∧ c.toNat ≤ 90 then Char.ofNat (c.toNat + 32) else c

/-- Model of Rust `str::trim`: drop whitespace from both ends. -/
def trimChars (cs : List Char) : List Char :=
  ((cs.dropWhile Char.isWhitespace).reverse.dropWhile Char.isWhitespace).reverse

/-- Errors of `Id` (`IdError` in `src/id.rs`). -/
inductive IdError where
  | StringTooLong
  | StringTooShort
  | BytesTooLong
  | BytesTooShort
  | InvalidCharacter (c : Char)
  | InvalidHyphenPosition
  deriving DecidableEq, Repr

/-- Errors of `ActorId` (`ActorIdError` in `src/actor/id.rs`); note there is
no hyphen-position variant. -/
inductive ActorIdError where
  | StringTooLong
  | StringTooShort
  | BytesTooLong
  | BytesTooShort
  | InvalidCharacter (c : Char)
  deriving DecidableEq, Repr

/-- Decidable equality for `Except` results, so that concrete encoder
outcomes can be checked by `decide`. -/
instance {ε α : Type} [DecidableEq ε] [DecidableEq α] :
    DecidableEq (Except ε α) := fun x y =>
  match x, y with
  | .ok a, .ok b =>
    if h : a = b then isTrue (by rw [h]) else
      isFalse (by intro hh; cases hh; exact h rfl)
  | .ok _, .error _ => isFalse (by intro hh; cases hh)
  | .error _, .ok _ => isFalse (by intro hh; cases hh)
  | .error e, .error f =>
    if h : e = f then isTrue (by rw [h]) else
      isFalse (by intro hh; cases hh; exact h rfl)

/-- The character-to-code match of `Id::from_str_core`:
`'a'..='z' => c - (b'a' - 1)`, `'0'..='9' => c - (b'0' - 1 - 26)`,
`'-' => 37`, anything else is invalid.  Rust range patterns on `char`
compare scalar values, modelled through `Char.toNat`. -/
def idCharValue (c : Char) : Option Nat :=
  if 97 ≤ c.toNat ∧ c.toNat ≤ 122 then some (c.toNat - 96)
  else if 48 ≤ c.toNat ∧ c.toNat ≤ 57 then some (c.toNat - 21)
  else if c.toNat = 45 then some 37
  else none

/-- The code of a catalog character (0 for invalid characters, which never
reach the packer). -/
def idCodeOf (c : Char) : Nat := (idCharValue c).getD 0

/-- The code-to-character match of `Id`'s `Display`:
`1..=26` are letters, `27..=36` digits, `37` the hyphen; `0` is the
terminator and handled by the caller; `38..=63` hit `unreachable!()`,
modelled as `none`. -/
def idCodeChar (v : Nat) : Option Char :=
  if 1 ≤ v ∧ v ≤ 26 then some (Char.ofNat (v + 96))
  else if 27 ≤ v ∧ v ≤ 36 then some (Char.ofNat (v + 21))
  else if v = 37 then some '-'
  else none

/-- The character-to-code match of `ActorId::from_str_core`, returning the
6-bit code and whether the character was an upper-case letter (which also
sets a capital-map bit). -/
def actorCharValue (c : Char) : Option (Nat × Bool) :=
  if 97 ≤ c.toNat ∧ c.toNat ≤ 122 then some (c.toNat - 96, false)
  else if 65 ≤ c.toNat ∧ c.toNat ≤ 90 then some (c.toNat - 64, true)
  else if 48 ≤ c.toNat ∧ c.toNat ≤ 57 then some (c.toNat - 21, false)
  else if c.toNat = 45 then some (37, false)
  else if c.toNat = 95 then some (38, false)
  else none

/-- The (case-folded) code of an actor character. -/
def actorCodeOf (c : Char) : Nat := ((actorCharValue c).getD (0, false)).1

/-- The code-to-character match of `ActorId`'s `Display`, given the
capital-map bit for this position; `39..=63` hit `unreachable!()`. -/
def actorCodeChar (isCap : Bool) (v : Nat) : Option Char :=
  if 1 ≤ v ∧ v ≤ 26 then
    some (if isCap then Char.ofNat (v + 64) else Char.ofNat (v + 96))
  else if 27 ≤ v ∧ v ≤ 36 then some (Char.ofNat (v + 21))
  else if v = 37 then some '-'
  else if v = 38 then some '_'
  else none

/-- Setting the capital-map bit for character position `pos`
(`bytes[pos / 8] |= 1 << (pos % 8)` in `ActorId::from_str_core`). -/
def capStep (bs : Nat → Nat) (pos : Nat) : Nat → Nat :=
  orB bs (pos / 8) ((1 <<< (pos % 8)) % 256)

/-- The `for` loop of `Id::from_str_core`: map each character, aborting with
`InvalidCharacter` at the first invalid one, and pack its code. -/
def encodeLoopId : List Char → Nat → (Nat → Nat) → Except IdError (Nat → Nat)
  | [], _, bs => .ok bs
  | c :: rest, i, bs =>
    match idCharValue c with
    | none => .error (.InvalidCharacter c)
    | some v => encodeLoopId rest (i + 1) (packStep 0 bs i v)

/-- The `for` loop of `ActorId::from_str_core`: additionally records the
capital-map bit for upper-case letters before packing the code at
offset `CAPITAL_MAP_SIZE = 3`. -/
def encodeLoopActor : List Char → Nat → (Nat → Nat) → Except ActorIdError (Nat → Nat)
  | [], _, bs => .ok bs
  | c :: rest, pos, bs =>
    match actorCharValue c with
    | none => .error (.InvalidCharacter c)
    | some (v, cap) =>
      let bs1 := if cap then capStep bs pos else bs
      encodeLoopActor rest (pos + 1) (packStep 3 bs1 pos v)

/-- First index `k` with `i ≤ k < i + fuel` whose byte is zero, or `i + fuel`
if none is: models the scan in `as_slice`. -/
def findZeroFrom (bs : List Nat) : Nat → Nat → Nat
  | i, 0 => i
  | i, fuel + 1 => if bs.getD i 0 = 0 then i else findZeroFrom bs (i + 1) fuel

/-- Catalog identifier: a 16-byte packed value (`Id` in `src/id.rs`). -/
structure Id where
  bytes : List Nat
  deriving DecidableEq, Repr

namespace Id

/-- `Id::MAX_LENGTH` -/
def MAX_LENGTH : Nat := 21

/-- `Id::MIN_LENGTH` -/
def MIN_LENGTH : Nat := 3

/-- `Id::MAX_LENGTH_IN_BYTES` -/
def MAX_LENGTH_IN_BYTES : Nat := 16

/-- `Id::MIN_LENGTH_IN_BYTES` -/
def MIN_LENGTH_IN_BYTES : Nat := 2

/-- `Id::from_str_core`: trim, ASCII-lowercase, check the character count
against `[MIN_LENGTH, MAX_LENGTH]` (too-long first), reject a leading or
trailing hyphen, then run the packing loop. -/
def fromStrCore (s : String) : Except IdError Id :=
  if ((trimChars s.toList).map asciiToLower).length > MAX_LENGTH then
    .error .StringTooLong
  else if ((trimChars s.toList).map asciiToLower).length < MIN_LENGTH then
    .error .StringTooShort
  else if ((trimChars s.toList).map asciiToLower).head? = some '-' ∨
      ((trimChars s.toList).map asciiToLower).getLast? = some '-' then
    .error .InvalidHyphenPosition
  else
    match encodeLoopId ((trimChars s.toList).map asciiToLower) 0 zeroBuf with
    | .error e => .error e
    | .ok f => .ok ⟨(List.range MAX_LENGTH_IN_BYTES).map f⟩

/-- `Id::new` -/
def new (s : String) : Except IdError Id := fromStrCore s

/-- `Id::from_slice_core`: accept a slice whose length is within
`[MIN_LENGTH_IN_BYTES, MAX_LENGTH_IN_BYTES]` and copy it into a zero-padded
16-byte buffer. -/
def fromSliceCore (l : List Nat) : Option Id :=
  if MIN_LENGTH_IN_BYTES ≤ l.length ∧ l.length ≤ MAX_LENGTH_IN_BYTES then
    some ⟨l ++ List.replicate (MAX_LENGTH_IN_BYTES - l.length) 0⟩
  else none

/-- `Id::from_slice`: aborts (`none`) when the slice length is out of
range. -/
def fromSlice (l : List Nat) : Option Id := fromSliceCore l

/-- `Id::try_from_slice`. -/
def tryFromSlice (l : List Nat) : Except IdError Id :=
  match fromSliceCore l with
  | some id => .ok id
  | none =>
    if l.length < MIN_LENGTH_IN_BYTES then .error .BytesTooShort
    else .error .BytesTooLong

/-- `Id::as_slice`: scan indices `MIN_LENGTH_IN_BYTES..MAX_LENGTH_IN_BYTES`
for the first zero byte and keep everything before it. -/
def asSlice (a : Id) : List Nat :=
  a.bytes.take (findZeroFrom a.bytes MIN_LENGTH_IN_BYTES
    (MAX_LENGTH_IN_BYTES - MIN_LENGTH_IN_BYTES))

/-- The 6-bit code of character index `i` as read by `Display for Id`. -/
def codeAt (a : Id) (i : Nat) : Nat :=
  getCodeF 0 (fun j => a.bytes.getD j 0) i

/-- The `Display for Id` loop: read codes until the terminator 0 or until
`MAX_LENGTH` characters; `none` models the `unreachable!()` abort for code
values `38..=63`. -/
def displayAux (a : Id) : Nat → Nat → Option (List Char)
  | _, 0 => some []
  | i, fuel + 1 =>
    let v := a.codeAt i
    if v = 0 then some []
    else
      match idCodeChar v with
      | none => none
      | some ch => (displayAux a (i + 1) fuel).map (ch :: ·)

/-- `Id`'s `to_string` via `Display`; `none` models an abort. -/
def displayOpt (a : Id) : Option String :=
  (a.displayAux 0 MAX_LENGTH).map List.asString

end Id

/-- Rust `impl Default for Id` (derived): the all-zero array, built with no
validation. -/
def Id.default : Id := ⟨List.replicate Id.MAX_LENGTH_IN_BYTES 0⟩

/-- Lexicographic comparison of two byte lists; Rust's `Ord` on `[u8; N]`
and on equal-length slices is exactly this elementwise comparison. -/
def compareBytes : List Nat → List Nat → Ordering
  | [], [] => .eq
  | [], _ :: _ => .lt
  | _ :: _, [] => .gt
  | a :: as, b :: bs =>
    if a < b then .lt else if b < a then .gt else compareBytes as bs

/-- Derived `Ord for Id`: compares the full 16-byte array. -/
def Id.cmp (a b : Id) : Ordering := compareBytes a.bytes b.bytes

/-- Actor identifier: a 21-byte value, 3 bytes of capital map followed by an
18-byte packed region (`ActorId` in `src/actor/id.rs`). -/
structure ActorId where
  bytes : List Nat
  deriving DecidableEq, Repr

namespace ActorId

/-- `ActorId::MAX_LENGTH` -/
def MAX_LENGTH : Nat := 24

/-- `ActorId::MIN_LENGTH` -/
def MIN_LENGTH : Nat := 3

/-- `ActorId::MAX_LENGTH_IN_BYTES` -/
def MAX_LENGTH_IN_BYTES : Nat := 18

/-- `ActorId::MIN_LENGTH_IN_BYTES` -/
def MIN_LENGTH_IN_BYTES : Nat := 3

/-- `ActorId::CAPITAL_MAP_SIZE` -/
def CAPITAL_MAP_SIZE : Nat := 3

/-- `ActorId::MIN_LENGTH_IN_BYTES_WITH_CAPITAL_MAP` -/
def MIN_WITH_MAP : Nat := MIN_LENGTH_IN_BYTES + CAPITAL_MAP_SIZE

/-- `ActorId::MAX_LENGTH_IN_BYTES_WITH_CAPITAL_MAP` -/
def MAX_WITH_MAP : Nat := MAX_LENGTH_IN_BYTES + CAPITAL_MAP_SIZE

/-- `ActorId::from_str_core`: trim (no case folding), check the character
count against `[MIN_LENGTH, MAX_LENGTH]` (too-short first), then run the
packing loop which also fills the capital map. -/
def fromStrCore (s : String) : Except ActorIdError ActorId :=
  if (trimChars s.toList).length < MIN_LENGTH then .error .StringTooShort
  else if (trimChars s.toList).length > MAX_LENGTH then .error .StringTooLong
  else
    match encodeLoopActor (trimChars s.toList) 0 zeroBuf with
    | .error e => .error e
    | .ok f => .ok ⟨(List.range MAX_WITH_MAP).map f⟩

/-- `ActorId::new` -/
def new (s : String) : Except ActorIdError ActorId := fromStrCore s

/-- `ActorId::from_slice_core`: accept a slice whose length is within
`[MIN_WITH_MAP, MAX_WITH_MAP] = [6, 21]` and copy it into a zero-padded
21-byte buffer. -/
def fromSliceCore (l : List Nat) : Option ActorId :=
  if MIN_WITH_MAP ≤ l.length ∧ l.length ≤ MAX_WITH_MAP then
    some ⟨l ++ List.replicate (MAX_WITH_MAP - l.length) 0⟩
  else none

/-- `ActorId::from_slice`: aborts (`none`) when the slice length is out of
range. -/
def fromSlice (l : List Nat) : Option ActorId := fromSliceCore l

/-- `ActorId::try_from_slice`. -/
def tryFromSlice (l : List Nat) : Except ActorIdError ActorId :=
  match fromSliceCore l with
  | some id => .ok id
  | none =>
    if l.length < MIN_WITH_MAP then .error .BytesTooShort
    else .error .BytesTooLong

/-- `ActorId::as_slice`: scan indices `MIN_WITH_MAP..MAX_WITH_MAP` for the
first zero byte and keep everything before it. -/
def asSlice (a : ActorId) : List Nat :=
  a.bytes.take (findZeroFrom a.bytes MIN_WITH_MAP (MAX_WITH_MAP - MIN_WITH_MAP))

/-- The packed-data region `self.0[CAPITAL_MAP_SIZE..]`, the canonical
comparison key of an `ActorId`. -/
def dataRegion (a : ActorId) : List Nat := a.bytes.drop CAPITAL_MAP_SIZE

/-- `PartialEq for ActorId`: equality of the packed regions only. -/
def beq (a b : ActorId) : Bool := a.dataRegion == b.dataRegion

/-- `Ord for ActorId`: lexicographic comparison of the packed regions
only. -/
def cmp (a b : ActorId) : Ordering := compareBytes a.dataRegion b.dataRegion

/-- `Hash for ActorId` feeds exactly `self.0[CAPITAL_MAP_SIZE..]` to the
hasher, so the hasher input stream is the packed region. -/
def hashInput (a : ActorId) : List Nat := a.dataRegion

/-- The 6-bit code of character index `i` as read by
`Display for ActorId` (offset `CAPITAL_MAP_SIZE` past the capital map). -/
def codeAt (a : ActorId) (i : Nat) : Nat :=
  getCodeF CAPITAL_MAP_SIZE (fun j => a.bytes.getD j 0) i

/-- The capital-map bit for character position `pos`
(`(bytes[pos/8] >> (pos%8)) & 1 == 1`). -/
def capitalAt (a : ActorId) (pos : Nat) : Bool :=
  (a.bytes.getD (pos / 8) 0 >>> (pos % 8)) &&& 1 = 1

/-- The `Display for ActorId` loop; `none` models the `unreachable!()`
abort for code values `39..=63`. -/
def displayAux (a : ActorId) : Nat → Nat → Option (List Char)
  | _, 0 => some []
  | pos, fuel + 1 =>
    let v := a.codeAt pos
    if v = 0 then some []
    else
      match actorCodeChar (a.capitalAt pos) v with
      | none => none
      | some ch => (displayAux a (pos + 1) fuel).map (ch :: ·)

/-- `ActorId`'s `to_string` via `Display`; `none` models an abort. -/
def displayOpt (a : ActorId) : Option String :=
  (a.displayAux 0 MAX_LENGTH).map List.asString

end ActorId

/-- Rust `impl Default for ActorId` (derived): the all-zero array, built with
no validation. -/
def ActorId.default : ActorId := ⟨List.replicate ActorId.MAX_WITH_MAP 0⟩

/-- The sequence of case-folded 6-bit codes of a (trimmed) actor input
string, the comparison key the specification's ordering clause refers to. -/
def caseFoldedCodes (s : String) : List Nat :=
  (trimChars s.toList).map actorCodeOf

/-- The sequence of case-folded 6-bit codes of a (trimmed, lowercased)
catalog input string, the catalog variant's comparison key in the
specification's ordering clause. -/
def catalogCodes (s : String) : List Nat :=
  ((trimChars s.toList).map asciiToLower).map idCodeOf

/-! ### Generic facts about the bit packer -/

lemma orB_apply (bs : Nat → Nat) (i v j : Nat) :
    orB bs i v j = if j = i then bs i ||| v else bs j := rfl

lemma getD_lt64 {cs : List Nat} (hc : ∀ c ∈ cs, c < 64) (k : Nat) :
    cs.getD k 0 < 64 := by
  rw [List.getD_eq_getElem?_getD]
  cases h : cs[k]? with
  | none => simp
  | some a => simpa using hc a (List.getElem?_mem h)

lemma getD_zero_of_le {cs : List Nat} {k : Nat} (h : cs.length ≤ k) :
    cs.getD k 0 = 0 := by
  rw [List.getD_eq_getElem?_getD, List.getElem?_eq_none h]
  rfl

/-- Packing a code at character index `4m` writes `value` into byte
`off + 3m` (bit offset 0, no straddle). -/
lemma packStep4_0 (off m : Nat) (bs : Nat → Nat) {c : Nat} (hc : c < 64) :
    packStep off bs (4 * m) c = orB bs (off + 3 * m) c := by
  unfold packStep
  rw [(by omega : 6 * (4 * m) % 8 = 0), (by omega : 6 * (4 * m) / 8 + off = off + 3 * m),
    if_neg (by omega), Nat.shiftLeft_zero, Nat.mod_eq_of_lt (by omega)]

/-- Packing at `4m+1` (bit offset 6) straddles bytes `off+3m` and
`off+3m+1`. -/
lemma packStep4_1 (off m : Nat) (bs : Nat → Nat) {c : Nat} (hc : c < 64) :
    packStep off bs (4 * m + 1) c =
      orB (orB bs (off + 3 * m) (c % 4 * 64)) (off + 3 * m + 1) (c / 4) := by
  unfold packStep
  rw [(by omega : 6 * (4 * m + 1) % 8 = 6), (by omega : 6 * (4 * m + 1) / 8 + off = off + 3 * m),
    if_pos (by omega), Nat.shiftLeft_eq, (by norm_num : (2 : Nat) ^ 6 = 64),
    (by omega : (8 : Nat) - 6 = 2), Nat.shiftRight_eq_div_pow,
    (by norm_num : (2 : Nat) ^ 2 = 4), (by omega : c * 64 % 256 = c % 4 * 64)]

/-- Packing at `4m+2` (bit offset 4) straddles bytes `off+3m+1` and
`off+3m+2`. -/
lemma packStep4_2 (off m : Nat) (bs : Nat → Nat) {c : Nat} (hc : c < 64) :
    packStep off bs (4 * m + 2) c =
      orB (orB bs (off + 3 * m + 1) (c % 16 * 16)) (off + 3 * m + 2) (c / 16) := by
  unfold packStep
  rw [(by omega : 6 * (4 * m + 2) % 8 = 4),
    (by omega : 6 * (4 * m + 2) / 8 + off = off + 3 * m + 1),
    if_pos (by omega), Nat.shiftLeft_eq, (by norm_num : (2 : Nat) ^ 4 = 16),
    (by omega : (8 : Nat) - 4 = 4), Nat.shiftRight_eq_div_pow,
    (by norm_num : (2 : Nat) ^ 4 = 16), (by omega : c * 16 % 256 = c % 16 * 16)]

/-- Packing at `4m+3` (bit offset 2) writes `value << 2` into byte
`off+3m+2` only. -/
lemma packStep4_3 (off m : Nat) (bs : Nat → Nat) {c : Nat} (hc : c < 64) :
    packStep off bs (4 * m + 3) c = orB bs (off + 3 * m + 2) (c * 4) := by
  unfold packStep
  rw [(by omega : 6 * (4 * m + 3) % 8 = 2),
    (by omega : 6 * (4 * m + 3) / 8 + off = off + 3 * m + 2),
    if_neg (by omega), Nat.shiftLeft_eq, (by norm_num : (2 : Nat) ^ 2 = 4),
    Nat.mod_eq_of_lt (by omega)]

lemma pbyte_nil (d : Nat) : pbyte [] d = 0 := by
  unfold pbyte
  split <;> simp [List.getD_nil]

lemma orB_ne {j i : Nat} (bs : Nat → Nat) (v : Nat) (h : j ≠ i) :
    orB bs i v j = bs j := by
  simp [orB, h]

lemma orB_eq (bs : Nat → Nat) (i v : Nat) : orB bs i v i = bs i ||| v := by
  simp [orB]

lemma pbyte_eq_zero {cs : List Nat} {d : Nat} (h : cs.length ≤ 4 * (d / 3)) :
    pbyte cs d = 0 := by
  unfold pbyte
  rw [getD_zero_of_le (show cs.length ≤ 4 * (d / 3) by omega),
    getD_zero_of_le (show cs.length ≤ 4 * (d / 3) + 1 by omega),
    getD_zero_of_le (show cs.length ≤ 4 * (d / 3) + 2 by omega),
    getD_zero_of_le (show cs.length ≤ 4 * (d / 3) + 3 by omega)]
  split
  · omega
  · split <;> omega

lemma getD_cons_four (a b c e : Nat) (l : List Nat) (n : Nat) :
    (a :: b :: c :: e :: l).getD (n + 4) 0 = l.getD n 0 := by
  rw [(by omega : n + 4 = n + 1 + 1 + 1 + 1)]
  simp [List.getD_cons_succ]

lemma pbyte_cons4 (c0 c1 c2 c3 : Nat) (rest : List Nat) (d : Nat) :
    pbyte (c0 :: c1 :: c2 :: c3 :: rest) (d + 3) = pbyte rest d := by
  unfold pbyte
  rw [(by omega : (d + 3) % 3 = d % 3), (by omega : (d + 3) / 3 = d / 3 + 1),
    (by omega : 4 * (d / 3 + 1) = 4 * (d / 3) + 4)]
  split
  · rw [(by omega : 4 * (d / 3) + 4 + 1 = 4 * (d / 3) + 1 + 4), getD_cons_four,
      getD_cons_four]
  · split
    · rw [(by omega : 4 * (d / 3) + 4 + 1 = 4 * (d / 3) + 1 + 4),
        (by omega : 4 * (d / 3) + 4 + 2 = 4 * (d / 3) + 2 + 4), getD_cons_four,
        getD_cons_four]
    · rw [(by omega : 4 * (d / 3) + 4 + 2 = 4 * (d / 3) + 2 + 4),
        (by omega : 4 * (d / 3) + 4 + 3 = 4 * (d / 3) + 3 + 4), getD_cons_four,
        getD_cons_four]

/-- Main characterisation of the packing loop run from character index `4m`
on a buffer that is zero from byte `off + 3m` on: bytes below `off + 3m` are
untouched and byte `off + 3m + d` holds `pbyte cs d`. -/
theorem packAux_bytes (off : Nat) :
    ∀ (g : Nat) (cs : List Nat) (m : Nat) (bs : Nat → Nat),
      cs.length ≤ 4 * g →
      (∀ c ∈ cs, c < 64) →
      (∀ j, off + 3 * m ≤ j → bs j = 0) →
      (∀ j, j < off + 3 * m → packAux off cs (4 * m) bs j = bs j) ∧
      (∀ d, packAux off cs (4 * m) bs (off + 3 * m + d) = pbyte cs d) := by
  intro g
  induction g with
  | zero =>
    intro cs m bs hlen hc hz
    have hcs : cs = [] := List.eq_nil_of_length_eq_zero (by omega)
    subst hcs
    simp only [packAux]
    exact ⟨fun j _ => trivial, fun d => by rw [pbyte_nil]; exact hz _ (by omega)⟩
  | succ g ih =>
    intro cs m bs hlen hc hz
    rcases cs with _ | ⟨c0, _ | ⟨c1, _ | ⟨c2, _ | ⟨c3, rest⟩⟩⟩⟩
    · simp only [packAux]
      exact ⟨fun j _ => trivial, fun d => by rw [pbyte_nil]; exact hz _ (by omega)⟩
    · -- one code left
      have hc0 : c0 < 64 := hc c0 (by simp)
      simp only [packAux]
      rw [packStep4_0 off m bs hc0]
      refine ⟨fun j hj => orB_ne _ _ (by omega), fun d => ?_⟩
      rcases (by omega : d = 0 ∨ d = 1 ∨ d = 2 ∨ 3 ≤ d) with h | h | h | h
      · subst h
        rw [(by omega : off + 3 * m + 0 = off + 3 * m), orB_eq, hz _ (by omega),
          Nat.zero_or]
        norm_num [pbyte, List.getD_cons_zero, List.getD_cons_succ, List.getD_nil] <;> omega
      · subst h
        rw [orB_ne _ _ (by omega), hz _ (by omega)]
        norm_num [pbyte, List.getD_cons_zero, List.getD_cons_succ, List.getD_nil] <;> omega
      · subst h
        rw [orB_ne _ _ (by omega), hz _ (by omega)]
        norm_num [pbyte, List.getD_cons_zero, List.getD_cons_succ, List.getD_nil] <;> omega
      · rw [orB_ne _ _ (by omega), hz _ (by omega),
          pbyte_eq_zero (by simp; omega)]
    · -- two codes left
      have hc0 : c0 < 64 := hc c0 (by simp)
      have hc1 : c1 < 64 := hc c1 (by simp)
      simp only [packAux]
      rw [packStep4_0 off m bs hc0, packStep4_1 off m _ hc1]
      refine ⟨fun j hj => by
        rw [orB_ne _ _ (by omega), orB_ne _ _ (by omega), orB_ne _ _ (by omega)],
        fun d => ?_⟩
      have h26 : (2 : Nat) ^ 6 = 64 := by norm_num
      rcases (by omega : d = 0 ∨ d = 1 ∨ d = 2 ∨ 3 ≤ d) with h | h | h | h
      · subst h
        rw [(by omega : off + 3 * m + 0 = off + 3 * m), orB_ne _ _ (by omega),
          orB_eq, orB_eq, hz _ (by omega), Nat.zero_or]
        have hadd := Nat.mul_add_lt_is_or (show c0 < 2 ^ 6 by omega) (c1 % 4)
        rw [h26] at hadd
        rw [Nat.or_comm, Nat.mul_comm (c1 % 4) 64, ← hadd]
        norm_num [pbyte, List.getD_cons_zero, List.getD_cons_succ, List.getD_nil] <;> omega
      · subst h
        rw [orB_eq, orB_ne _ _ (by omega), orB_ne _ _ (by omega), hz _ (by omega),
          Nat.zero_or]
        norm_num [pbyte, List.getD_cons_zero, List.getD_cons_succ, List.getD_nil] <;> omega
      · subst h
        rw [orB_ne _ _ (by omega), orB_ne _ _ (by omega), orB_ne _ _ (by omega),
          hz _ (by omega)]
        norm_num [pbyte, List.getD_cons_zero, List.getD_cons_succ, List.getD_nil] <;> omega
      · rw [orB_ne _ _ (by omega), orB_ne _ _ (by omega), orB_ne _ _ (by omega),
          hz _ (by omega), pbyte_eq_zero (by simp; omega)]
    · -- three codes left
      have hc0 : c0 < 64 := hc c0 (by simp)
      have hc1 : c1 < 64 := hc c1 (by simp)
      have hc2 : c2 < 64 := hc c2 (by simp)
      simp only [packAux]
      rw [packStep4_0 off m bs hc0, packStep4_1 off m _ hc1,
        (by omega : 4 * m + 1 + 1 = 4 * m + 2), packStep4_2 off m _ hc2]
      refine ⟨fun j hj => by
        rw [orB_ne _ _ (by omega), orB_ne _ _ (by omega), orB_ne _ _ (by omega),
          orB_ne _ _ (by omega), orB_ne _ _ (by omega)],
        fun d => ?_⟩
      have h26 : (2 : Nat) ^ 6 = 64 := by norm_num
      have h24 : (2 : Nat) ^ 4 = 16 := by norm_num
      rcases (by omega : d = 0 ∨ d = 1 ∨ d = 2 ∨ 3 ≤ d) with h | h | h | h
      · subst h
        rw [(by omega : off + 3 * m + 0 = off + 3 * m), orB_ne _ _ (by omega),
          orB_ne _ _ (by omega), orB_ne _ _ (by omega), orB_eq, orB_eq,
          hz _ (by omega), Nat.zero_or]
        have hadd := Nat.mul_add_lt_is_or (show c0 < 2 ^ 6 by omega) (c1 % 4)
        rw [h26] at hadd
        rw [Nat.or_comm, Nat.mul_comm (c1 % 4) 64, ← hadd]
        norm_num [pbyte, List.getD_cons_zero, List.getD_cons_succ, List.getD_nil] <;> omega
      · subst h
        rw [orB_ne _ _ (by omega), orB_eq, orB_eq, orB_ne _ _ (by omega),
          orB_ne _ _ (by omega), hz _ (by omega), Nat.zero_or]
        have hadd := Nat.mul_add_lt_is_or (show c1 / 4 < 2 ^ 4 by omega) (c2 % 16)
        rw [h24] at hadd
        rw [Nat.or_comm, Nat.mul_comm (c2 % 16) 16, ← hadd]
        norm_num [pbyte, List.getD_cons_zero, List.getD_cons_succ, List.getD_nil] <;> omega
      · subst h
        rw [orB_eq, orB_ne _ _ (by omega), orB_ne _ _ (by omega),
          orB_ne _ _ (by omega), orB_ne _ _ (by omega), hz _ (by omega),
          Nat.zero_or]
        norm_num [pbyte, List.getD_cons_zero, List.getD_cons_succ, List.getD_nil] <;> omega
      · rw [orB_ne _ _ (by omega), orB_ne _ _ (by omega), orB_ne _ _ (by omega),
          orB_ne _ _ (by omega), orB_ne _ _ (by omega), hz _ (by omega),
          pbyte_eq_zero (by simp; omega)]
    · -- at least four codes left: one full 24-bit group, then recurse
      have hc0 : c0 < 64 := hc c0 (by simp)
      have hc1 : c1 < 64 := hc c1 (by simp)
      have hc2 : c2 < 64 := hc c2 (by simp)
      have hc3 : c3 < 64 := hc c3 (by simp)
      simp only [packAux]
      rw [packStep4_0 off m bs hc0, packStep4_1 off m _ hc1,
        (by omega : 4 * m + 1 + 1 = 4 * m + 2), packStep4_2 off m _ hc2,
        (by omega : 4 * m + 2 + 1 = 4 * m + 3), packStep4_3 off m _ hc3,
        (by omega : 4 * m + 3 + 1 = 4 * (m + 1))]
      have key := ih rest (m + 1)
        (orB (orB (orB (orB (orB (orB bs (off + 3 * m) c0) (off + 3 * m)
          (c1 % 4 * 64)) (off + 3 * m + 1) (c1 / 4)) (off + 3 * m + 1)
          (c2 % 16 * 16)) (off + 3 * m + 2) (c2 / 16)) (off + 3 * m + 2) (c3 * 4))
        (by simp only [List.length_cons] at hlen; omega)
        (fun c hm => hc c (by simp [hm]))
        (fun j hj => by
          rw [orB_ne _ _ (by omega), orB_ne _ _ (by omega), orB_ne _ _ (by omega),
            orB_ne _ _ (by omega), orB_ne _ _ (by omega), orB_ne _ _ (by omega)]
          exact hz _ (by omega))
      have h26 : (2 : Nat) ^ 6 = 64 := by norm_num
      have h24 : (2 : Nat) ^ 4 = 16 := by norm_num
      have h22 : (2 : Nat) ^ 2 = 4 := by norm_num
      refine ⟨fun j hj => ?_, fun d => ?_⟩
      · rw [key.1 j (by omega), orB_ne _ _ (by omega), orB_ne _ _ (by omega),
          orB_ne _ _ (by omega), orB_ne _ _ (by omega), orB_ne _ _ (by omega),
          orB_ne _ _ (by omega)]
      · rcases (by omega : d = 0 ∨ d = 1 ∨ d = 2 ∨ 3 ≤ d) with h | h | h | h
        · subst h
          rw [(by omega : off + 3 * m + 0 = off + 3 * m), key.1 _ (by omega),
            orB_ne _ _ (by omega), orB_ne _ _ (by omega), orB_ne _ _ (by omega),
            orB_ne _ _ (by omega), orB_eq, orB_eq, hz _ (by omega), Nat.zero_or]
          have hadd := Nat.mul_add_lt_is_or (show c0 < 2 ^ 6 by omega) (c1 % 4)
          rw [h26] at hadd
          rw [Nat.or_comm, Nat.mul_comm (c1 % 4) 64, ← hadd]
          norm_num [pbyte, List.getD_cons_zero, List.getD_cons_succ, List.getD_nil] <;> omega
        · subst h
          rw [key.1 _ (by omega), orB_ne _ _ (by omega), orB_ne _ _ (by omega),
            orB_eq, orB_eq, orB_ne _ _ (by omega), orB_ne _ _ (by omega),
            hz _ (by omega), Nat.zero_or]
          have hadd := Nat.mul_add_lt_is_or (show c1 / 4 < 2 ^ 4 by omega) (c2 % 16)
          rw [h24] at hadd
          rw [Nat.or_comm, Nat.mul_comm (c2 % 16) 16, ← hadd]
          norm_num [pbyte, List.getD_cons_zero, List.getD_cons_succ, List.getD_nil] <;> omega
        · subst h
          rw [key.1 _ (by omega), orB_eq, orB_eq, orB_ne _ _ (by omega),
            orB_ne _ _ (by omega), orB_ne _ _ (by omega), orB_ne _ _ (by omega),
            hz _ (by omega), Nat.zero_or]
          have hadd := Nat.mul_add_lt_is_or (show c2 / 16 < 2 ^ 2 by omega) c3
          rw [h22] at hadd
          rw [Nat.or_comm, Nat.mul_comm c3 4, ← hadd]
          norm_num [pbyte, List.getD_cons_zero, List.getD_cons_succ, List.getD_nil] <;> omega
        · obtain ⟨e, rfl⟩ : ∃ e, d = e + 3 := ⟨d - 3, by omega⟩
          rw [(by omega : off + 3 * m + (e + 3) = off + 3 * (m + 1) + e), key.2 e,
            pbyte_cons4]

lemma extract_arith1 {x y z : Nat} (hx : x < 64) (hy : y < 64) (hz : z < 64) :
    (((x + 64 * (y % 4)) / 64) ||| ((y / 4 + 16 * (z % 16)) * 4 % 256)) &&& 63
      = y := by
  rw [(show (x + 64 * (y % 4)) / 64 = y % 4 by omega),
    (show (y / 4 + 16 * (z % 16)) * 4 % 256 = 4 * (y / 4 + 16 * (z % 4)) by omega)]
  have hadd := Nat.mul_add_lt_is_or (show y % 4 < 2 ^ 2 by omega) (y / 4 + 16 * (z % 4))
  rw [(show (2 : Nat) ^ 2 = 4 by norm_num)] at hadd
  rw [Nat.or_comm, ← hadd, (show (63 : Nat) = 2 ^ 6 - 1 by norm_num),
    Nat.and_pow_two_sub_one_eq_mod, (show (2 : Nat) ^ 6 = 64 by norm_num)]
  omega

lemma extract_arith2 {x y z : Nat} (hx : x < 64) (hy : y < 64) (hz : z < 64) :
    (((x / 4 + 16 * (y % 16)) / 16) ||| ((y / 16 + 4 * z) * 16 % 256)) &&& 63
      = y := by
  rw [(show (x / 4 + 16 * (y % 16)) / 16 = y % 16 by omega),
    (show (y / 16 + 4 * z) * 16 % 256 = 16 * (y / 16 + 4 * (z % 4)) by omega)]
  have hadd := Nat.mul_add_lt_is_or (show y % 16 < 2 ^ 4 by omega) (y / 16 + 4 * (z % 4))
  rw [(show (2 : Nat) ^ 4 = 16 by norm_num)] at hadd
  rw [Nat.or_comm, ← hadd, (show (63 : Nat) = 2 ^ 6 - 1 by norm_num),
    Nat.and_pow_two_sub_one_eq_mod, (show (2 : Nat) ^ 6 = 64 by norm_num)]
  omega

/-- Reading character `i` back from a buffer packed from codes `cs`
(all `< 64`) returns exactly `cs[i]`, i.e. 0 past the end of the list. -/
theorem getCodeF_packAux (off : Nat) (cs : List Nat) (hc : ∀ c ∈ cs, c < 64)
    (i : Nat) : getCodeF off (packAux off cs 0 zeroBuf) i = cs.getD i 0 := by
  have hb := (packAux_bytes off cs.length cs 0 zeroBuf (by omega) hc
    (fun j _ => rfl)).2
  have hP : ∀ d, packAux off cs 0 zeroBuf (off + d) = pbyte cs d := by
    intro d
    have := hb d
    norm_num at this
    exact this
  have ha : ∀ k, cs.getD k 0 < 64 := getD_lt64 hc
  unfold getCodeF
  rcases (by omega : i % 4 = 0 ∨ i % 4 = 1 ∨ i % 4 = 2 ∨ i % 4 = 3) with h | h | h | h
  · rw [if_pos (show 6 * i % 8 ≤ 2 by omega),
      (show 6 * i / 8 + off = off + 3 * (i / 4) by omega), hP (3 * (i / 4))]
    have pA : pbyte cs (3 * (i / 4)) =
        cs.getD i 0 + 64 * (cs.getD (i + 1) 0 % 4) := by
      unfold pbyte
      rw [if_pos (by omega), (show 3 * (i / 4) / 3 = i / 4 by omega),
        (show 4 * (i / 4) = i by omega)]
    rw [pA, (show 6 * i % 8 = 0 by omega), Nat.shiftRight_zero,
      (show (63 : Nat) = 2 ^ 6 - 1 by norm_num), Nat.and_pow_two_sub_one_eq_mod,
      (show (2 : Nat) ^ 6 = 64 by norm_num)]
    have := ha i
    omega
  · rw [if_neg (show ¬ 6 * i % 8 ≤ 2 by omega),
      (show 6 * i / 8 + off = off + 3 * (i / 4) by omega)]
    rw [(show off + 3 * (i / 4) + 1 = off + (3 * (i / 4) + 1) by omega),
      hP (3 * (i / 4)), hP (3 * (i / 4) + 1)]
    have pA : pbyte cs (3 * (i / 4)) =
        cs.getD (i - 1) 0 + 64 * (cs.getD i 0 % 4) := by
      unfold pbyte
      rw [if_pos (by omega), (show 3 * (i / 4) / 3 = i / 4 by omega),
        (show 4 * (i / 4) = i - 1 by omega), (show i - 1 + 1 = i by omega)]
    have pB : pbyte cs (3 * (i / 4) + 1) =
        cs.getD i 0 / 4 + 16 * (cs.getD (i + 1) 0 % 16) := by
      unfold pbyte
      rw [if_neg (by omega), if_pos (by omega),
        (show (3 * (i / 4) + 1) / 3 = i / 4 by omega),
        (show 4 * (i / 4) + 1 = i by omega),
        (show 4 * (i / 4) + 2 = i + 1 by omega)]
    rw [pA, pB, (show 6 * i % 8 = 6 by omega), Nat.shiftRight_eq_div_pow,
      (show (2 : Nat) ^ 6 = 64 by norm_num), (show 8 - 6 = 2 by omega),
      Nat.shiftLeft_eq, (show (2 : Nat) ^ 2 = 4 by norm_num)]
    exact extract_arith1 (ha (i - 1)) (ha i) (ha (i + 1))
  · rw [if_neg (show ¬ 6 * i % 8 ≤ 2 by omega),
      (show 6 * i / 8 + off = off + (3 * (i / 4) + 1) by omega)]
    rw [(show off + (3 * (i / 4) + 1) + 1 = off + (3 * (i / 4) + 2) by omega),
      hP (3 * (i / 4) + 1), hP (3 * (i / 4) + 2)]
    have pB : pbyte cs (3 * (i / 4) + 1) =
        cs.getD (i - 1) 0 / 4 + 16 * (cs.getD i 0 % 16) := by
      unfold pbyte
      rw [if_neg (by omega), if_pos (by omega),
        (show (3 * (i / 4) + 1) / 3 = i / 4 by omega),
        (show 4 * (i / 4) + 1 = i - 1 by omega),
        (show 4 * (i / 4) + 2 = i by omega)]
    have pC : pbyte cs (3 * (i / 4) + 2) =
        cs.getD i 0 / 16 + 4 * cs.getD (i + 1) 0 := by
      unfold pbyte
      rw [if_neg (by omega), if_neg (by omega),
        (show (3 * (i / 4) + 2) / 3 = i / 4 by omega),
        (show 4 * (i / 4) + 2 = i by omega),
        (show 4 * (i / 4) + 3 = i + 1 by omega)]
    rw [pB, pC, (show 6 * i % 8 = 4 by omega), Nat.shiftRight_eq_div_pow,
      (show (2 : Nat) ^ 4 = 16 by norm_num), (show 8 - 4 = 4 by omega),
      Nat.shiftLeft_eq, (show (2 : Nat) ^ 4 = 16 by norm_num)]
    exact extract_arith2 (ha (i - 1)) (ha i) (ha (i + 1))
  · rw [if_pos (show 6 * i % 8 ≤ 2 by omega),
      (show 6 * i / 8 + off = off + (3 * (i / 4) + 2) by omega),
      hP (3 * (i / 4) + 2)]
    have pC : pbyte cs (3 * (i / 4) + 2) =
        cs.getD (i - 1) 0 / 16 + 4 * cs.getD i 0 := by
      unfold pbyte
      rw [if_neg (by omega), if_neg (by omega),
        (show (3 * (i / 4) + 2) / 3 = i / 4 by omega),
        (show 4 * (i / 4) + 2 = i - 1 by omega),
        (show 4 * (i / 4) + 3 = i by omega)]
    rw [pC, (show 6 * i % 8 = 2 by omega), Nat.shiftRight_eq_div_pow,
      (show (2 : Nat) ^ 2 = 4 by norm_num),
      (show (63 : Nat) = 2 ^ 6 - 1 by norm_num), Nat.and_pow_two_sub_one_eq_mod,
      (show (2 : Nat) ^ 6 = 64 by norm_num)]
    have h1 := ha (i - 1)
    have h2 := ha i
    omega

/-! ### Congruence of the packer on the data region -/

lemma orB_agree {off : Nat} {bs bs' : Nat → Nat} {i : Nat} (v : Nat)
    (hi : off ≤ i) (h : ∀ j, off ≤ j → bs j = bs' j) :
    ∀ j, off ≤ j → orB bs i v j = orB bs' i v j := by
  intro j hj
  unfold orB
  split
  · rw [h i hi]
  · exact h j hj

lemma packStep_agree {off : Nat} {bs bs' : Nat → Nat} (i v : Nat)
    (h : ∀ j, off ≤ j → bs j = bs' j) :
    ∀ j, off ≤ j → packStep off bs i v j = packStep off bs' i v j := by
  unfold packStep
  split
  · exact orB_agree _ (by omega) (orB_agree _ (by omega) h)
  · exact orB_agree _ (by omega) h

lemma packAux_agree {off : Nat} (cs : List Nat) :
    ∀ (i : Nat) {bs bs' : Nat → Nat}, (∀ j, off ≤ j → bs j = bs' j) →
      ∀ j, off ≤ j → packAux off cs i bs j = packAux off cs i bs' j := by
  induction cs with
  | nil => intro i bs bs' h j hj; exact h j hj
  | cons v rest ih =>
    intro i bs bs' h j hj
    simp only [packAux]
    exact ih (i + 1) (packStep_agree i v h) j hj

/-- The capital-map write only touches the three map bytes. -/
lemma capStep_agree {bs : Nat → Nat} {pos : Nat} (hpos : pos < 24) :
    ∀ j, 3 ≤ j → capStep bs pos j = bs j := by
  intro j hj
  unfold capStep
  exact orB_ne _ _ (by omega)

/-! ### The encoding loops in terms of the packer -/

lemma encodeLoopId_ok {cs : List Char} : ∀ {i : Nat} {bs f : Nat → Nat},
    encodeLoopId cs i bs = .ok f → f = packAux 0 (cs.map idCodeOf) i bs := by
  induction cs with
  | nil =>
    intro i bs f h
    simp only [encodeLoopId] at h
    cases h
    rfl
  | cons c rest ih =>
    intro i bs f h
    simp only [encodeLoopId] at h
    cases hv : idCharValue c with
    | none => simp only [hv] at h; exact (Except.noConfusion h)
    | some v =>
      simp only [hv] at h
      have hv' : idCodeOf c = v := by unfold idCodeOf; rw [hv]; rfl
      rw [ih h]
      simp only [List.map_cons, packAux, hv']

lemma encodeLoopId_ok_valid {cs : List Char} : ∀ {i : Nat} {bs f : Nat → Nat},
    encodeLoopId cs i bs = .ok f → ∀ c ∈ cs, (idCharValue c).isSome := by
  induction cs with
  | nil => intro i bs f _ c hc; cases hc
  | cons c0 rest ih =>
    intro i bs f h c hcmem
    simp only [encodeLoopId] at h
    cases hv : idCharValue c0 with
    | none => simp only [hv] at h; exact (Except.noConfusion h)
    | some v =>
      simp only [hv] at h
      rcases List.mem_cons.mp hcmem with rfl | hmem
      · simp [hv]
      · exact ih h c hmem

lemma encodeLoopId_isOk {cs : List Char} : ∀ {i : Nat} (bs : Nat → Nat),
    (∀ c ∈ cs, (idCharValue c).isSome) → ∃ f, encodeLoopId cs i bs = .ok f := by
  induction cs with
  | nil => intro i bs _; exact ⟨bs, rfl⟩
  | cons c rest ih =>
    intro i bs hval
    have hs : (idCharValue c).isSome := hval c (by simp)
    cases hv : idCharValue c with
    | none => rw [hv] at hs; cases hs
    | some v =>
      obtain ⟨f, hf⟩ := ih (packStep 0 bs i v) (fun c hc => hval c (by simp [hc]))
      exact ⟨f, by simp only [encodeLoopId, hv]; exact hf⟩

lemma encodeLoopId_first_invalid : ∀ (p : List Char) {c0 : Char} (r : List Char)
    {i : Nat} (bs : Nat → Nat), (∀ c ∈ p, (idCharValue c).isSome) →
    idCharValue c0 = none →
    encodeLoopId (p ++ c0 :: r) i bs = .error (.InvalidCharacter c0) := by
  intro p
  induction p with
  | nil =>
    intro c0 r i bs _ hbad
    simp only [List.nil_append, encodeLoopId, hbad]
  | cons c rest ih =>
    intro c0 r i bs hval hbad
    have hs : (idCharValue c).isSome := hval c (by simp)
    cases hv : idCharValue c with
    | none => rw [hv] at hs; cases hs
    | some v =>
      simp only [List.cons_append, encodeLoopId, hv]
      exact ih r _ (fun c hc => hval c (by simp [hc])) hbad

lemma encodeLoopActor_ok_valid {cs : List Char} : ∀ {pos : Nat} {bs f : Nat → Nat},
    encodeLoopActor cs pos bs = .ok f → ∀ c ∈ cs, (actorCharValue c).isSome := by
  induction cs with
  | nil => intro pos bs f _ c hc; cases hc
  | cons c0 rest ih =>
    intro pos bs f h c hcmem
    simp only [encodeLoopActor] at h
    cases hv : actorCharValue c0 with
    | none => simp only [hv] at h; exact (Except.noConfusion h)
    | some p =>
      simp only [hv] at h
      rcases List.mem_cons.mp hcmem with rfl | hmem
      · simp [hv]
      · exact ih h c hmem

lemma encodeLoopActor_isOk {cs : List Char} : ∀ {pos : Nat} (bs : Nat → Nat),
    (∀ c ∈ cs, (actorCharValue c).isSome) →
    ∃ f, encodeLoopActor cs pos bs = .ok f := by
  induction cs with
  | nil => intro pos bs _; exact ⟨bs, rfl⟩
  | cons c rest ih =>
    intro pos bs hval
    have hs : (actorCharValue c).isSome := hval c (by simp)
    cases hv : actorCharValue c with
    | none => rw [hv] at hs; cases hs
    | some p =>
      obtain ⟨v, cap⟩ := p
      obtain ⟨f, hf⟩ := ih (packStep 3 (if cap then capStep bs pos else bs) pos v)
        (fun c hc => hval c (by simp [hc]))
      exact ⟨f, by simp only [encodeLoopActor, hv]; exact hf⟩

lemma encodeLoopActor_first_invalid : ∀ (p : List Char) {c0 : Char}
    (r : List Char) {pos : Nat} (bs : Nat → Nat),
    (∀ c ∈ p, (actorCharValue c).isSome) → actorCharValue c0 = none →
    encodeLoopActor (p ++ c0 :: r) pos bs = .error (.InvalidCharacter c0) := by
  intro p
  induction p with
  | nil =>
    intro c0 r pos bs _ hbad
    simp only [List.nil_append, encodeLoopActor, hbad]
  | cons c rest ih =>
    intro c0 r pos bs hval hbad
    have hs : (actorCharValue c).isSome := hval c (by simp)
    cases hv : actorCharValue c with
    | none => rw [hv] at hs; cases hs
    | some p =>
      obtain ⟨v, cap⟩ := p
      simp only [List.cons_append, encodeLoopActor, hv]
      exact ih r _ (fun c hc => hval c (by simp [hc])) hbad

/-- On the data region (bytes `≥ 3`), a successful actor encoding loop acts
exactly like the plain packer on the case-folded codes: the interleaved
capital-map writes only touch bytes `0..2`. -/
lemma encodeLoopActor_data {cs : List Char} : ∀ {pos : Nat} {bs f : Nat → Nat},
    pos + cs.length ≤ 24 → encodeLoopActor cs pos bs = .ok f →
    ∀ j, 3 ≤ j → f j = packAux 3 (cs.map actorCodeOf) pos bs j := by
  induction cs with
  | nil =>
    intro pos bs f _ h j hj
    simp only [encodeLoopActor] at h
    cases h
    rfl
  | cons c rest ih =>
    intro pos bs f hlen h j hj
    simp only [encodeLoopActor] at h
    cases hv : actorCharValue c with
    | none => simp only [hv] at h; exact (Except.noConfusion h)
    | some p =>
      obtain ⟨v, cap⟩ := p
      simp only [hv] at h
      have hv' : actorCodeOf c = v := by unfold actorCodeOf; rw [hv]; rfl
      have hlen' : pos + 1 + rest.length ≤ 24 := by
        simp only [List.length_cons] at hlen
        omega
      have step := ih hlen' h j hj
      rw [step]
      simp only [List.map_cons, packAux, hv']
      cases cap with
      | false => rfl
      | true =>
        exact packAux_agree (rest.map actorCodeOf) (pos + 1)
          (packStep_agree pos v (capStep_agree (by omega))) j hj

/-! ### Character-level facts -/

lemma charToNat_ofNat {n : Nat} (h : n < 55296) : (Char.ofNat n).toNat = n := by
  have hv : n.isValidChar := Or.inl h
  unfold Char.ofNat
  rw [dif_pos hv]
  rfl

lemma idCodeOf_lt64 (c : Char) : idCodeOf c < 64 := by
  unfold idCodeOf idCharValue
  split_ifs with h1 h2 h3 <;> simp <;> omega

lemma actorCodeOf_lt64 (c : Char) : actorCodeOf c < 64 := by
  unfold actorCodeOf actorCharValue
  split_ifs with h1 h2 h3 h4 h5 <;> simp <;> omega

lemma idCodeOf_range {c : Char} (h : (idCharValue c).isSome) :
    1 ≤ idCodeOf c ∧ idCodeOf c ≤ 37 := by
  unfold idCodeOf
  unfold idCharValue at h ⊢
  split_ifs at h ⊢ with h1 h2 h3 <;> simp at h ⊢ <;> omega

lemma actorCodeOf_range {c : Char} (h : (actorCharValue c).isSome) :
    1 ≤ actorCodeOf c ∧ actorCodeOf c ≤ 38 := by
  unfold actorCodeOf
  unfold actorCharValue at h ⊢
  split_ifs at h ⊢ with h1 h2 h3 h4 h5 <;> simp at h ⊢ <;> omega

/-- The actor code of a character is unchanged by ASCII lowercasing: the
`'A'..='Z'` arm subtracts `b'A' - 1`, which lands on the same 1-based index
as the `'a'..='z'` arm after adding 32. -/
lemma actorCodeOf_asciiToLower (c : Char) :
    actorCodeOf (asciiToLower c) = actorCodeOf c := by
  unfold asciiToLower
  split_ifs with h
  · have ht : (Char.ofNat (c.toNat + 32)).toNat = c.toNat + 32 :=
      charToNat_ofNat (by omega)
    unfold actorCodeOf actorCharValue
    rw [ht]
    rw [if_pos (by omega), if_neg (by omega), if_pos (by omega)]
    simp
  · rfl

lemma codes_eq_of_lower_eq {t₁ t₂ : List Char}
    (h : t₁.map asciiToLower = t₂.map asciiToLower) :
    t₁.map actorCodeOf = t₂.map actorCodeOf := by
  have e : ∀ t : List Char, t.map actorCodeOf = (t.map asciiToLower).map actorCodeOf := by
    intro t
    rw [List.map_map]
    exact (List.map_congr_left fun a _ => (actorCodeOf_asciiToLower a).symm)
  rw [e t₁, e t₂, h]

/-! ### From the materialised byte list back to the packer -/

lemma getD_range_map (f : Nat → Nat) (L j : Nat) (h : j < L) :
    ((List.range L).map f).getD j 0 = f j := by
  rw [List.getD_eq_getElem?_getD, List.getElem?_map, List.getElem?_range h]
  rfl

lemma getCodeF_congr (off : Nat) {g g' : Nat → Nat} (i : Nat)
    (h : ∀ j, off ≤ j → g j = g' j) : getCodeF off g i = getCodeF off g' i := by
  unfold getCodeF
  split
  · rw [h _ (by omega)]
  · rw [h _ (by omega), h _ (by omega)]

lemma getCodeF_range_map (off L : Nat) (f : Nat → Nat) (i : Nat)
    (hb : 6 * i / 8 + off < L) (hb1 : 2 < 6 * i % 8 → 6 * i / 8 + off + 1 < L) :
    getCodeF off (fun j => ((List.range L).map f).getD j 0) i = getCodeF off f i := by
  unfold getCodeF
  beta_reduce
  rcases le_or_lt (6 * i % 8) 2 with hr | hr
  · rw [if_pos hr, if_pos hr, getD_range_map _ _ _ hb]
  · rw [if_neg (by omega), if_neg (by omega), getD_range_map _ _ _ hb,
      getD_range_map _ _ _ (hb1 hr)]

lemma getD_map_lt {t : List Char} (g : Char → Nat) {i : Nat} (h : i < t.length) :
    (t.map g).getD i 0 = g (t.get ⟨i, h⟩) := by
  rw [List.getD_eq_getElem?_getD, List.getElem?_map,
    List.getElem?_eq_getElem h]
  rfl

open Id in
/-- Every code read back from a successfully encoded catalog `Id` is the
code of the corresponding character of the trimmed, lowercased input. -/
theorem idCodeAt_encode {s : String} {a : Id} (h : Id.fromStrCore s = .ok a) :
    ∀ i, i < 21 →
      a.codeAt i = (((trimChars s.toList).map asciiToLower).map idCodeOf).getD i 0 := by
  intro i hi
  unfold fromStrCore at h
  split_ifs at h with h1 h2 h3
  cases henc : encodeLoopId ((trimChars s.toList).map asciiToLower) 0 zeroBuf with
  | error e => rw [henc] at h; exact (Except.noConfusion h)
  | ok f =>
    rw [henc] at h
    have ha : a = ⟨(List.range MAX_LENGTH_IN_BYTES).map f⟩ := by
      cases h
      rfl
    subst ha
    have hf := encodeLoopId_ok henc
    subst hf
    unfold codeAt
    rw [getCodeF_range_map 0 MAX_LENGTH_IN_BYTES _ i
      (by unfold MAX_LENGTH_IN_BYTES; omega)
      (fun hr => by unfold MAX_LENGTH_IN_BYTES; omega)]
    exact getCodeF_packAux 0 _ (fun c hc => by
      obtain ⟨ch, _, rfl⟩ := List.mem_map.mp hc
      exact idCodeOf_lt64 ch) i

open ActorId in
/-- Every code read back from a successfully encoded `ActorId` is the
(case-folded) code of the corresponding character of the trimmed input. -/
theorem actorCodeAt_encode {s : String} {a : ActorId}
    (h : ActorId.fromStrCore s = .ok a) :
    ∀ i, i < 24 →
      a.codeAt i = ((trimChars s.toList).map actorCodeOf).getD i 0 := by
  intro i hi
  unfold fromStrCore at h
  split_ifs at h with h1 h2
  cases henc : encodeLoopActor (trimChars s.toList) 0 zeroBuf with
  | error e => rw [henc] at h; exact (Except.noConfusion h)
  | ok f =>
    rw [henc] at h
    have ha : a = ⟨(List.range MAX_WITH_MAP).map f⟩ := by
      cases h
      rfl
    subst ha
    have hdata := encodeLoopActor_data
      (by simp only [MAX_LENGTH] at h2; omega) henc
    unfold codeAt
    rw [getCodeF_range_map CAPITAL_MAP_SIZE MAX_WITH_MAP _ i
      (by simp only [CAPITAL_MAP_SIZE, MAX_WITH_MAP, MAX_LENGTH_IN_BYTES]; omega)
      (fun hr => by
        simp only [CAPITAL_MAP_SIZE, MAX_WITH_MAP, MAX_LENGTH_IN_BYTES]; omega)]
    rw [getCodeF_congr CAPITAL_MAP_SIZE i
      (fun j hj => hdata j (by simp only [CAPITAL_MAP_SIZE] at hj; omega))]
    exact getCodeF_packAux 3 _ (fun c hc => by
      obtain ⟨ch, _, rfl⟩ := List.mem_map.mp hc
      exact actorCodeOf_lt64 ch) i

/-! ### Comparison and encoding-success facts -/

lemma compareBytes_self : ∀ l : List Nat, compareBytes l l = .eq := by
  intro l
  induction l with
  | nil => rfl
  | cons a rest ih =>
    unfold compareBytes
    rw [if_neg (by omega), if_neg (by omega)]
    exact ih

open Id in
/-- A successful catalog encode implies the length bounds, the hyphen rule
and the validity of every (lowercased) character. -/
lemma idEncode_ok_pieces {s : String} {a : Id} (h : Id.fromStrCore s = .ok a) :
    3 ≤ ((trimChars s.toList).map asciiToLower).length ∧
    ((trimChars s.toList).map asciiToLower).length ≤ 21 ∧
    ¬(((trimChars s.toList).map asciiToLower).head? = some '-' ∨
        ((trimChars s.toList).map asciiToLower).getLast? = some '-') ∧
    ∀ c ∈ (trimChars s.toList).map asciiToLower, (idCharValue c).isSome := by
  unfold fromStrCore at h
  split_ifs at h with h1 h2 h3
  cases henc : encodeLoopId ((trimChars s.toList).map asciiToLower) 0 zeroBuf with
  | error e => rw [henc] at h; exact (Except.noConfusion h)
  | ok f =>
    refine ⟨?_, ?_, h3, encodeLoopId_ok_valid henc⟩
    · simp only [MIN_LENGTH] at h2; omega
    · simp only [MAX_LENGTH] at h1; omega

open ActorId in
/-- A successful actor encode implies the length bounds and the validity of
every character. -/
lemma actorEncode_ok_pieces {s : String} {a : ActorId}
    (h : ActorId.fromStrCore s = .ok a) :
    3 ≤ (trimChars s.toList).length ∧ (trimChars s.toList).length ≤ 24 ∧
    ∀ c ∈ trimChars s.toList, (actorCharValue c).isSome := by
  unfold fromStrCore at h
  split_ifs at h with h1 h2
  cases henc : encodeLoopActor (trimChars s.toList) 0 zeroBuf with
  | error e => rw [henc] at h; exact (Except.noConfusion h)
  | ok f =>
    refine ⟨?_, ?_, encodeLoopActor_ok_valid henc⟩
    · simp only [MIN_LENGTH] at h1; omega
    · simp only [MAX_LENGTH] at h2; omega

open Id in
/-- A catalog encode succeeds whenever the trimmed length is in range, the
hyphen rule holds and every character is accepted. -/
lemma idFromStrCore_isOk {s : String}
    (hlen1 : 3 ≤ ((trimChars s.toList).map asciiToLower).length)
    (hlen2 : ((trimChars s.toList).map asciiToLower).length ≤ 21)
    (hhy : ¬(((trimChars s.toList).map asciiToLower).head? = some '-' ∨
        ((trimChars s.toList).map asciiToLower).getLast? = some '-'))
    (hval : ∀ c ∈ (trimChars s.toList).map asciiToLower, (idCharValue c).isSome) :
    (Id.fromStrCore s).isOk = true := by
  unfold fromStrCore
  rw [if_neg (by simp only [MAX_LENGTH]; omega),
    if_neg (by simp only [MIN_LENGTH]; omega), if_neg hhy]
  obtain ⟨f, hf⟩ := encodeLoopId_isOk zeroBuf hval
  rw [hf]
  rfl

open ActorId in
/-- An actor encode succeeds whenever the trimmed length is in range and
every character is accepted. -/
lemma actorFromStrCore_isOk {s : String}
    (hlen1 : 3 ≤ (trimChars s.toList).length)
    (hlen2 : (trimChars s.toList).length ≤ 24)
    (hval : ∀ c ∈ trimChars s.toList, (actorCharValue c).isSome) :
    (ActorId.fromStrCore s).isOk = true := by
  unfold fromStrCore
  rw [if_neg (by simp only [MIN_LENGTH]; omega),
    if_neg (by simp only [MAX_LENGTH]; omega)]
  obtain ⟨f, hf⟩ := encodeLoopActor_isOk zeroBuf hval
  rw [hf]
  rfl

/-- The packed data region of an encoded `ActorId` is a pure function of the
case-folded code sequence of the trimmed input. -/
lemma ActorId.dataRegion_encode {s : String} {a : ActorId}
    (h : ActorId.fromStrCore s = .ok a) :
    a.dataRegion = (List.range 18).map
      (fun j => packAux 3 ((trimChars s.toList).map actorCodeOf) 0 zeroBuf (3 + j)) := by
  unfold fromStrCore at h
  split_ifs at h with h1 h2
  cases henc : encodeLoopActor (trimChars s.toList) 0 zeroBuf with
  | error e => rw [henc] at h; exact (Except.noConfusion h)
  | ok f =>
    rw [henc] at h
    have ha : a = ⟨(List.range MAX_WITH_MAP).map f⟩ := by
      cases h
      rfl
    subst ha
    have hdata := encodeLoopActor_data
      (by simp only [MAX_LENGTH] at h2; omega) henc
    unfold dataRegion
    apply List.ext_getElem
    · simp [MAX_WITH_MAP, MAX_LENGTH_IN_BYTES, CAPITAL_MAP_SIZE]
    · intro n h1' h2'
      have hn : n < 18 := by simpa using h2'
      have hlen21 : ((List.range MAX_WITH_MAP).map f).length = 21 := by
        simp [MAX_WITH_MAP, MAX_LENGTH_IN_BYTES, CAPITAL_MAP_SIZE]
      rw [List.getElem_drop, List.getElem_map, List.getElem_range,
        List.getElem_map, List.getElem_range]
      · exact hdata _ (by simp only [CAPITAL_MAP_SIZE]; omega)

open Id in
/-- The full byte array of an encoded catalog `Id` is a pure function of the
code sequence of the trimmed, lowercased input. -/
lemma idBytes_encode {s : String} {a : Id} (h : Id.fromStrCore s = .ok a) :
    a.bytes = (List.range Id.MAX_LENGTH_IN_BYTES).map
      (packAux 0 (((trimChars s.toList).map asciiToLower).map idCodeOf) 0 zeroBuf) := by
  unfold fromStrCore at h
  split_ifs at h with h1 h2 h3
  cases henc : encodeLoopId ((trimChars s.toList).map asciiToLower) 0 zeroBuf with
  | error e => rw [henc] at h; exact (Except.noConfusion h)
  | ok f =>
    rw [henc] at h
    have ha : a = ⟨(List.range MAX_LENGTH_IN_BYTES).map f⟩ := by
      cases h
      rfl
    subst ha
    rw [encodeLoopId_ok henc]

/-! ### Claim theorems -/

/-- Claim C1: the encode → `as_slice` → `try_from_slice` → `to_display_string`
round trip does NOT return the original string for every in-range input of
accepted characters: for the catalog input `"aaaaaap"` (7 characters, all
accepted, no edge hyphen) the serialized slice ends at an interior zero
byte — byte 4 of the packing is 0 although characters follow — so decoding
the slice and rendering yields `"aaaaaa"`, while rendering the encoded value
directly yields `"aaaaaap"`. -/
theorem claim_C1_roundtrip_failure :
    ((Id.new "aaaaaap").toOption.bind fun a =>
      (Id.tryFromSlice a.asSlice).toOption.bind Id.displayOpt) = some "aaaaaa"
    ∧ ((Id.new "aaaaaap").toOption.bind Id.displayOpt) = some "aaaaaap"
    ∧ (trimChars "aaaaaap".toList).length = 7
    ∧ (∀ c ∈ (trimChars "aaaaaap".toList).map asciiToLower, (idCharValue c).isSome)
    ∧ ((trimChars "aaaaaap".toList).map asciiToLower).head? ≠ some '-'
    ∧ ((trimChars "aaaaaap".toList).map asciiToLower).getLast? ≠ some '-'
    ∧ "aaaaaa" ≠ "aaaaaap" := by
  decide

/-- Claim C3: `to_display_string` is NOT abort-free on every constructible
identifier: the value built by the public `try_from_slice` from the 2-byte
slice `[63, 1]` is accepted (length in range), but rendering it hits the
`unreachable!()` arm (6-bit code 63), modelled as `none`.  The
`from_slice` entry point does abort on out-of-range lengths as claimed. -/
theorem claim_C3_display_abort :
    ((Id.tryFromSlice [63, 1]).toOption.map Id.displayOpt) = some none
    ∧ Id.fromSlice (List.replicate 17 0) = none
    ∧ Id.fromSlice [0] = none
    ∧ ActorId.fromSlice (List.replicate 22 0) = none
    ∧ ActorId.fromSlice (List.replicate 5 0) = none := by
  decide

/-- Claim C4 counterexample: the claim says the actor `try_from_slice` succeeds
exactly on lengths in `[MIN_LENGTH_IN_BYTES, MAX_LENGTH_IN_BYTES] = [3, 21]`,
but a 3-byte slice is rejected with `BytesTooShort`: the code compares
against `MIN_LENGTH_IN_BYTES_WITH_CAPITAL_MAP = 6`. -/
theorem claim_C4_counterexample :
    ([(0 : Nat), 0, 0].length = 3 ∧ ActorId.MIN_LENGTH_IN_BYTES = 3) ∧
    ActorId.tryFromSlice [0, 0, 0] = .error .BytesTooShort := by
  decide

/-- Claim C8: the catalog encoder rejects a leading or trailing hyphen with
`InvalidHyphenPosition`, accepts an interior hyphen, and the actor encoder
performs no such check (both `"id-"` and `"-id"` encode fine). -/
theorem claim_C8_hyphen_rule :
    Id.new "id-" = .error .InvalidHyphenPosition ∧
    Id.new "-id" = .error .InvalidHyphenPosition ∧
    (Id.new "i-d").isOk = true ∧
    (ActorId.new "id-").isOk = true ∧
    (ActorId.new "-id").isOk = true := by
  decide

/-- Claim C10: both derived `Default` implementations produce the all-zero byte
value with no validation; it renders as the empty string (0 characters,
below `MIN_LENGTH = 3`), a string the validating constructor rejects — so a
syntactically invalid identifier is constructible through the public
interface. -/
theorem claim_C10_default :
    Id.default.bytes = List.replicate 16 0 ∧
    ActorId.default.bytes = List.replicate 21 0 ∧
    Id.displayOpt Id.default = some "" ∧
    ActorId.displayOpt ActorId.default = some "" ∧
    ("" : String).toList.length = 0 ∧ Id.MIN_LENGTH = 3 ∧
    ActorId.MIN_LENGTH = 3 ∧
    Id.fromStrCore "" = .error .StringTooShort ∧
    ActorId.fromStrCore "" = .error .StringTooShort := by
  decide

/-- Claim C2 counterexample: in BOTH variants, `Ord` does NOT agree with
lexicographic order over the case-folded 6-bit code sequences: the code
sequence of `"aba"` is lexicographically below that of `"baa"`, yet the
packed identifiers compare the other way — for the `ActorId` and for the
catalog `Id` alike (character 0 sits in the LOW bits of byte 0, so byte-wise
comparison weights later characters of the same byte group higher). -/
theorem claim_C2_counterexample :
    (compareBytes (caseFoldedCodes "aba") (caseFoldedCodes "baa") = .lt ∧
      ((ActorId.new "aba").toOption.bind fun a =>
        (ActorId.new "baa").toOption.map fun b => ActorId.cmp a b) = some .gt) ∧
    (compareBytes (catalogCodes "aba") (catalogCodes "baa") = .lt ∧
      ((Id.new "aba").toOption.bind fun a =>
        (Id.new "baa").toOption.map fun b => Id.cmp a b) = some .gt) := by
  decide

/-- Claim C5: `ActorId` equality, ordering and the hasher input are computed
solely from the packed data region (bytes 3..21), so any two values with
identical packed regions are equal, compare as equal and hash identically,
whatever their case bitmaps; in particular `encode("Anthol_User")` equals
`encode("anthol_user")`. -/
theorem claim_C5_comparison_key :
    (∀ a b : ActorId, a.dataRegion = b.dataRegion →
      a.beq b = true ∧ a.cmp b = .eq ∧ a.hashInput = b.hashInput) ∧
    ((ActorId.new "Anthol_User").toOption.bind fun a =>
      (ActorId.new "anthol_user").toOption.map fun b => a.beq b) = some true := by
  constructor
  · intro a b h
    refine ⟨?_, ?_, ?_⟩
    · unfold ActorId.beq
      rw [h]
      simp
    · unfold ActorId.cmp
      rw [h]
      exact compareBytes_self _
    · unfold ActorId.hashInput
      exact h
  · decide

/-- Claim C5 witness: the general part applied to two concrete `ActorId` values
with the same packed region but different bitmaps (`"aBc"` and `"Abc"`). -/
theorem claim_C5_witness :
    ActorId.cmp ⟨[2, 0, 0, 129, 48, 0, 0, 0, 0, 0, 0, 0, 0, 0, 0, 0, 0, 0, 0, 0, 0]⟩
      ⟨[1, 0, 0, 129, 48, 0, 0, 0, 0, 0, 0, 0, 0, 0, 0, 0, 0, 0, 0, 0, 0]⟩ = .eq :=
  (claim_C5_comparison_key.1
    ⟨[2, 0, 0, 129, 48, 0, 0, 0, 0, 0, 0, 0, 0, 0, 0, 0, 0, 0, 0, 0, 0]⟩
    ⟨[1, 0, 0, 129, 48, 0, 0, 0, 0, 0, 0, 0, 0, 0, 0, 0, 0, 0, 0, 0, 0]⟩
    (by decide)).2.1

/-- Claim C2 amended: in both variants, ordering is the lexicographic byte
order of the packed byte region — bytes 3..21 excluding the case bitmap for
`ActorId`, the full 16-byte array for the catalog `Id` — and it is
independent of the original case: inputs equal after ASCII case folding
compare as equal.  `encode("Anthol_User") < encode("Anthol_User-123")`
holds, and likewise for the catalog encoding of `"Anthol-User"` versus
`"Anthol-User-123"`.  (Byte order does not coincide with lexicographic
order on the per-character code sequences; see the counterexample.) -/
theorem claim_C2_ordering :
    (∀ (s₁ s₂ : String) (a₁ a₂ : ActorId),
      ActorId.fromStrCore s₁ = .ok a₁ → ActorId.fromStrCore s₂ = .ok a₂ →
      (ActorId.cmp a₁ a₂ = compareBytes a₁.dataRegion a₂.dataRegion) ∧
      ((trimChars s₁.toList).map asciiToLower = (trimChars s₂.toList).map asciiToLower →
        ActorId.cmp a₁ a₂ = .eq)) ∧
    (∀ (s₁ s₂ : String) (a₁ a₂ : Id),
      Id.fromStrCore s₁ = .ok a₁ → Id.fromStrCore s₂ = .ok a₂ →
      (Id.cmp a₁ a₂ = compareBytes a₁.bytes a₂.bytes) ∧
      ((trimChars s₁.toList).map asciiToLower = (trimChars s₂.toList).map asciiToLower →
        Id.cmp a₁ a₂ = .eq)) ∧
    ((ActorId.new "Anthol_User").toOption.bind fun a =>
      (ActorId.new "Anthol_User-123").toOption.map fun b => ActorId.cmp a b)
      = some .lt ∧
    ((Id.new "Anthol-User").toOption.bind fun a =>
      (Id.new "Anthol-User-123").toOption.map fun b => Id.cmp a b) = some .lt := by
  refine ⟨?_, ?_, by decide, by decide⟩
  · intro s₁ s₂ a₁ a₂ h₁ h₂
    refine ⟨rfl, fun hlow => ?_⟩
    have e₁ := ActorId.dataRegion_encode h₁
    have e₂ := ActorId.dataRegion_encode h₂
    have hcodes := codes_eq_of_lower_eq hlow
    unfold ActorId.cmp
    rw [e₁, e₂, hcodes]
    exact compareBytes_self _
  · intro s₁ s₂ a₁ a₂ h₁ h₂
    refine ⟨rfl, fun hlow => ?_⟩
    have e₁ := idBytes_encode h₁
    have e₂ := idBytes_encode h₂
    unfold Id.cmp
    rw [e₁, e₂, hlow]
    exact compareBytes_self _

/-- Claim C2 witness: both general parts applied to the concrete inputs
`"aBc"` and `"Abc"`, which agree after case folding, for each variant. -/
theorem claim_C2_witness :
    ActorId.cmp ⟨[2, 0, 0, 129, 48, 0, 0, 0, 0, 0, 0, 0, 0, 0, 0, 0, 0, 0, 0, 0, 0]⟩
      ⟨[1, 0, 0, 129, 48, 0, 0, 0, 0, 0, 0, 0, 0, 0, 0, 0, 0, 0, 0, 0, 0]⟩ = .eq ∧
    Id.cmp ⟨[129, 48, 0, 0, 0, 0, 0, 0, 0, 0, 0, 0, 0, 0, 0, 0]⟩
      ⟨[129, 48, 0, 0, 0, 0, 0, 0, 0, 0, 0, 0, 0, 0, 0, 0]⟩ = .eq :=
  ⟨(claim_C2_ordering.1 "aBc" "Abc"
      ⟨[2, 0, 0, 129, 48, 0, 0, 0, 0, 0, 0, 0, 0, 0, 0, 0, 0, 0, 0, 0, 0]⟩
      ⟨[1, 0, 0, 129, 48, 0, 0, 0, 0, 0, 0, 0, 0, 0, 0, 0, 0, 0, 0, 0, 0]⟩
      (by decide) (by decide)).2 (by decide),
    (claim_C2_ordering.2.1 "aBc" "Abc"
      ⟨[129, 48, 0, 0, 0, 0, 0, 0, 0, 0, 0, 0, 0, 0, 0, 0]⟩
      ⟨[129, 48, 0, 0, 0, 0, 0, 0, 0, 0, 0, 0, 0, 0, 0, 0]⟩
      (by decide) (by decide)).2 (by decide)⟩

/-- Claim C4 amended: `try_from_slice` succeeds exactly when the slice length is
within `[2, 16]` for the catalog `Id` and within `[6, 21]` (the bounds
including the 3-byte capital map, not `[3, 21]`) for the `ActorId`; shorter
slices fail `BytesTooShort`, longer ones `BytesTooLong`, and on success the
slice is copied into a zero-padded fixed buffer. -/
theorem claim_C4_decode_bounds : ∀ l : List Nat,
    ((2 ≤ l.length ∧ l.length ≤ 16 →
        Id.tryFromSlice l = .ok ⟨l ++ List.replicate (16 - l.length) 0⟩) ∧
      (l.length < 2 → Id.tryFromSlice l = .error .BytesTooShort) ∧
      (16 < l.length → Id.tryFromSlice l = .error .BytesTooLong)) ∧
    ((6 ≤ l.length ∧ l.length ≤ 21 →
        ActorId.tryFromSlice l = .ok ⟨l ++ List.replicate (21 - l.length) 0⟩) ∧
      (l.length < 6 → ActorId.tryFromSlice l = .error .BytesTooShort) ∧
      (21 < l.length → ActorId.tryFromSlice l = .error .BytesTooLong)) := by
  intro l
  unfold Id.tryFromSlice Id.fromSliceCore ActorId.tryFromSlice ActorId.fromSliceCore
  simp only [Id.MIN_LENGTH_IN_BYTES, Id.MAX_LENGTH_IN_BYTES, ActorId.MIN_WITH_MAP,
    ActorId.MAX_WITH_MAP, ActorId.MIN_LENGTH_IN_BYTES, ActorId.MAX_LENGTH_IN_BYTES,
    ActorId.CAPITAL_MAP_SIZE]
  norm_num
  refine ⟨⟨fun h1 h2 => ?_, fun h => ?_, fun h => ?_⟩,
    ⟨fun h1 h2 => ?_, fun h => ?_, fun h => ?_⟩⟩
  · rw [if_pos ⟨h1, h2⟩]
  · rw [if_neg (by omega)]
    show (if l.length < 2 then (Except.error IdError.BytesTooShort : Except IdError Id)
      else Except.error IdError.BytesTooLong) = Except.error IdError.BytesTooShort
    rw [if_pos (by omega)]
  · rw [if_neg (by omega)]
    show (if l.length < 2 then (Except.error IdError.BytesTooShort : Except IdError Id)
      else Except.error IdError.BytesTooLong) = Except.error IdError.BytesTooLong
    rw [if_neg (by omega)]
  · rw [if_pos ⟨h1, h2⟩]
  · rw [if_neg (by omega)]
    show (if l.length < 6 then
        (Except.error ActorIdError.BytesTooShort : Except ActorIdError ActorId)
      else Except.error ActorIdError.BytesTooLong)
      = Except.error ActorIdError.BytesTooShort
    rw [if_pos (by omega)]
  · rw [if_neg (by omega)]
    show (if l.length < 6 then
        (Except.error ActorIdError.BytesTooShort : Except ActorIdError ActorId)
      else Except.error ActorIdError.BytesTooLong)
      = Except.error ActorIdError.BytesTooLong
    rw [if_neg (by omega)]

/-- Claim C4 witness: the amended bounds applied to concrete slices of lengths
2 and 6. -/
theorem claim_C4_witness :
    Id.tryFromSlice [7, 7] = .ok ⟨[7, 7] ++ List.replicate 14 0⟩ ∧
    ActorId.tryFromSlice [0, 0, 0, 0, 0, 7] =
      .ok ⟨[0, 0, 0, 0, 0, 7] ++ List.replicate 15 0⟩ :=
  ⟨((claim_C4_decode_bounds [7, 7]).1.1 ⟨by decide, by decide⟩),
    ((claim_C4_decode_bounds [0, 0, 0, 0, 0, 7]).2.1 ⟨by decide, by decide⟩)⟩

/-- Claim C7: for inputs made of accepted characters (and, for the catalog
variant, with no edge hyphen), encoding succeeds at trimmed lengths
`MIN_LENGTH = 3` and `MAX_LENGTH` (24 actor / 21 catalog), fails
`StringTooShort` at `MIN_LENGTH - 1` or fewer characters and
`StringTooLong` at `MAX_LENGTH + 1` or more. -/
theorem claim_C7_length_bounds : ∀ s : String,
    ((∀ c ∈ trimChars s.toList, (actorCharValue c).isSome) →
      (((trimChars s.toList).length = 3 ∨ (trimChars s.toList).length = 24) →
        (ActorId.fromStrCore s).isOk = true) ∧
      ((trimChars s.toList).length ≤ 2 →
        ActorId.fromStrCore s = .error .StringTooShort) ∧
      (25 ≤ (trimChars s.toList).length →
        ActorId.fromStrCore s = .error .StringTooLong)) ∧
    ((∀ c ∈ (trimChars s.toList).map asciiToLower, (idCharValue c).isSome) →
      ¬(((trimChars s.toList).map asciiToLower).head? = some '-' ∨
        ((trimChars s.toList).map asciiToLower).getLast? = some '-') →
      ((((trimChars s.toList).length = 3 ∨ (trimChars s.toList).length = 21) →
        (Id.fromStrCore s).isOk = true) ∧
      ((trimChars s.toList).length ≤ 2 →
        Id.fromStrCore s = .error .StringTooShort) ∧
      (22 ≤ (trimChars s.toList).length →
        Id.fromStrCore s = .error .StringTooLong))) := by
  intro s
  have hmaplen : ((trimChars s.toList).map asciiToLower).length
      = (trimChars s.toList).length := by simp
  constructor
  · intro hval
    refine ⟨fun hl => actorFromStrCore_isOk (by omega) (by omega) hval,
      fun hl => ?_, fun hl => ?_⟩
    · unfold ActorId.fromStrCore
      rw [if_pos (by simp only [ActorId.MIN_LENGTH]; omega)]
    · unfold ActorId.fromStrCore
      rw [if_neg (by simp only [ActorId.MIN_LENGTH]; omega),
        if_pos (by simp only [ActorId.MAX_LENGTH]; omega)]
  · intro hval hhy
    refine ⟨fun hl => idFromStrCore_isOk (by omega) (by omega) hhy hval,
      fun hl => ?_, fun hl => ?_⟩
    · unfold Id.fromStrCore
      rw [if_neg (by simp only [Id.MAX_LENGTH]; omega),
        if_pos (by simp only [Id.MIN_LENGTH]; omega)]
    · unfold Id.fromStrCore
      rw [if_pos (by simp only [Id.MAX_LENGTH]; omega)]

/-- Claim C7 witness: both length-boundary parts applied to the concrete input
`"abc"` (trimmed length exactly `MIN_LENGTH`) and `"ab"` (one below it). -/
theorem claim_C7_witness :
    (ActorId.fromStrCore "abc").isOk = true ∧
    (Id.fromStrCore "abc").isOk = true ∧
    ActorId.fromStrCore "ab" = .error .StringTooShort ∧
    Id.fromStrCore "ab" = .error .StringTooShort :=
  ⟨((claim_C7_length_bounds "abc").1 (by decide)).1 (Or.inl (by decide)),
    (((claim_C7_length_bounds "abc").2 (by decide) (by decide)).1 (Or.inl (by decide))),
    (((claim_C7_length_bounds "ab").1 (by decide)).2.1 (by decide)),
    (((claim_C7_length_bounds "ab").2 (by decide) (by decide)).2.1 (by decide))⟩

/-- Claim C9: in a successfully encoded identifier of `n` characters, the packed
region yields a nonzero 6-bit code in `1..=38` at every character index
below `n` and the code 0 at every index from `n` up to `MAX_LENGTH`: the
reserved code 0 is the terminator and no length field is stored. -/
theorem claim_C9_terminator :
    (∀ (s : String) (a : ActorId), ActorId.fromStrCore s = .ok a →
      ∀ i, i < ActorId.MAX_LENGTH →
        (i < (trimChars s.toList).length → 1 ≤ a.codeAt i ∧ a.codeAt i ≤ 38) ∧
        ((trimChars s.toList).length ≤ i → a.codeAt i = 0)) ∧
    (∀ (s : String) (a : Id), Id.fromStrCore s = .ok a →
      ∀ i, i < Id.MAX_LENGTH →
        (i < (trimChars s.toList).length → 1 ≤ a.codeAt i ∧ a.codeAt i ≤ 38) ∧
        ((trimChars s.toList).length ≤ i → a.codeAt i = 0)) := by
  constructor
  · intro s a h i hi
    simp only [ActorId.MAX_LENGTH] at hi
    have hc := actorCodeAt_encode h i hi
    have pieces := actorEncode_ok_pieces h
    constructor
    · intro hlt
      rw [hc, getD_map_lt actorCodeOf hlt]
      exact actorCodeOf_range (pieces.2.2 _ (List.get_mem _ _ _))
    · intro hge
      rw [hc]
      exact getD_zero_of_le (by simpa using hge)
  · intro s a h i hi
    simp only [Id.MAX_LENGTH] at hi
    have hc := idCodeAt_encode h i hi
    have pieces := idEncode_ok_pieces h
    have hmaplen : ((trimChars s.toList).map asciiToLower).length
        = (trimChars s.toList).length := by simp
    constructor
    · intro hlt
      have hlt' : i < ((trimChars s.toList).map asciiToLower).length := by omega
      rw [hc, getD_map_lt idCodeOf hlt']
      have hr := idCodeOf_range (pieces.2.2.2 _ (List.get_mem _ i hlt'))
      omega
    · intro hge
      rw [hc]
      exact getD_zero_of_le (by simp only [List.length_map]; omega)

/-- Claim C9 witness: the catalog part applied to the concrete encoding of
`"abc"` (3 characters): the code at index 0 is in range and the code at
index 5 is the terminator 0. -/
theorem claim_C9_witness :
    (1 ≤ Id.codeAt ⟨[129, 48, 0, 0, 0, 0, 0, 0, 0, 0, 0, 0, 0, 0, 0, 0]⟩ 0 ∧
      Id.codeAt ⟨[129, 48, 0, 0, 0, 0, 0, 0, 0, 0, 0, 0, 0, 0, 0, 0]⟩ 0 ≤ 38) ∧
    Id.codeAt ⟨[129, 48, 0, 0, 0, 0, 0, 0, 0, 0, 0, 0, 0, 0, 0, 0]⟩ 5 = 0 :=
  ⟨(claim_C9_terminator.2 "abc" ⟨[129, 48, 0, 0, 0, 0, 0, 0, 0, 0, 0, 0, 0, 0, 0, 0]⟩
      (by decide) 0 (by decide)).1 (by decide),
    (claim_C9_terminator.2 "abc" ⟨[129, 48, 0, 0, 0, 0, 0, 0, 0, 0, 0, 0, 0, 0, 0, 0]⟩
      (by decide) 5 (by decide)).2 (by decide)⟩

/-- Claim C6: character-to-code mapping: case-folded letters map to `1..=26`
(upper-case letters land on the same code as their lower-case forms — the
catalog variant folds before mapping), digits to `27..=36`, hyphen to 37
and, for the actor variant only, underscore to 38 (the catalog mapping
rejects it); the display mapping is a right inverse on codes `1..=37`
(catalog) and `1..=38` (actor); and an input whose first offending
character is outside the accepted set fails with `InvalidCharacter`
carrying exactly that character. -/
theorem claim_C6_alphabet :
    (∀ c : Char, 97 ≤ c.toNat → c.toNat ≤ 122 →
      actorCharValue c = some (c.toNat - 96, false) ∧
      idCharValue c = some (c.toNat - 96) ∧
      1 ≤ c.toNat - 96 ∧ c.toNat - 96 ≤ 26) ∧
    (∀ c : Char, 65 ≤ c.toNat → c.toNat ≤ 90 →
      actorCharValue c = some (c.toNat - 64, true) ∧
      idCharValue (asciiToLower c) = some (c.toNat - 64) ∧
      1 ≤ c.toNat - 64 ∧ c.toNat - 64 ≤ 26) ∧
    (∀ c : Char, 48 ≤ c.toNat → c.toNat ≤ 57 →
      actorCharValue c = some (c.toNat - 21, false) ∧
      idCharValue c = some (c.toNat - 21) ∧
      27 ≤ c.toNat - 21 ∧ c.toNat - 21 ≤ 36) ∧
    (actorCharValue '-' = some (37, false) ∧ idCharValue '-' = some 37) ∧
    (actorCharValue '_' = some (38, false) ∧ idCharValue '_' = none) ∧
    (∀ v, 1 ≤ v → v ≤ 37 →
      ∃ ch, idCodeChar v = some ch ∧ idCharValue ch = some v) ∧
    (∀ v, 1 ≤ v → v ≤ 38 →
      ∃ ch, actorCodeChar false v = some ch ∧ actorCharValue ch = some (v, false)) ∧
    (∀ (s : String) (p r : List Char) (c0 : Char),
      trimChars s.toList = p ++ c0 :: r →
      3 ≤ (trimChars s.toList).length → (trimChars s.toList).length ≤ 24 →
      (∀ c ∈ p, (actorCharValue c).isSome) → actorCharValue c0 = none →
      ActorId.fromStrCore s = .error (.InvalidCharacter c0)) ∧
    (∀ (s : String) (p r : List Char) (c0 : Char),
      (trimChars s.toList).map asciiToLower = p ++ c0 :: r →
      3 ≤ (trimChars s.toList).length → (trimChars s.toList).length ≤ 21 →
      ¬((p ++ c0 :: r).head? = some '-' ∨ (p ++ c0 :: r).getLast? = some '-') →
      (∀ c ∈ p, (idCharValue c).isSome) → idCharValue c0 = none →
      Id.fromStrCore s = .error (.InvalidCharacter c0)) := by
  refine ⟨?_, ?_, ?_, by decide, by decide, ?_, ?_, ?_, ?_⟩
  · intro c h1 h2
    refine ⟨?_, ?_, by omega, by omega⟩
    · unfold actorCharValue
      rw [if_pos ⟨h1, h2⟩]
    · unfold idCharValue
      rw [if_pos ⟨h1, h2⟩]
  · intro c h1 h2
    have ht : (Char.ofNat (c.toNat + 32)).toNat = c.toNat + 32 :=
      charToNat_ofNat (by omega)
    refine ⟨?_, ?_, by omega, by omega⟩
    · unfold actorCharValue
      rw [if_neg (by omega), if_pos ⟨h1, h2⟩]
    · unfold asciiToLower
      rw [if_pos ⟨h1, h2⟩]
      unfold idCharValue
      rw [ht, if_pos (by omega)]
      congr 1
  · intro c h1 h2
    refine ⟨?_, ?_, by omega, by omega⟩
    · unfold actorCharValue
      rw [if_neg (by omega), if_neg (by omega), if_pos ⟨h1, h2⟩]
    · unfold idCharValue
      rw [if_neg (by omega), if_pos ⟨h1, h2⟩]
  · intro v h1 h2
    rcases (by omega : v ≤ 26 ∨ (27 ≤ v ∧ v ≤ 36) ∨ v = 37) with h | h | h
    · refine ⟨Char.ofNat (v + 96), ?_, ?_⟩
      · unfold idCodeChar
        rw [if_pos ⟨h1, h⟩]
      · have ht : (Char.ofNat (v + 96)).toNat = v + 96 := charToNat_ofNat (by omega)
        unfold idCharValue
        rw [ht, if_pos (by omega)]
        congr 1
    · refine ⟨Char.ofNat (v + 21), ?_, ?_⟩
      · unfold idCodeChar
        rw [if_neg (by omega), if_pos (by omega)]
      · have ht : (Char.ofNat (v + 21)).toNat = v + 21 := charToNat_ofNat (by omega)
        unfold idCharValue
        rw [ht, if_neg (by omega), if_pos (by omega)]
        congr 1
    · subst h
      exact ⟨'-', by decide, by decide⟩
  · intro v h1 h2
    rcases (by omega : v ≤ 26 ∨ (27 ≤ v ∧ v ≤ 36) ∨ v = 37 ∨ v = 38) with h | h | h | h
    · refine ⟨Char.ofNat (v + 96), ?_, ?_⟩
      · unfold actorCodeChar
        rw [if_pos ⟨h1, h⟩]
        simp
      · have ht : (Char.ofNat (v + 96)).toNat = v + 96 := charToNat_ofNat (by omega)
        unfold actorCharValue
        rw [ht, if_pos (by omega)]
        congr 2
    · refine ⟨Char.ofNat (v + 21), ?_, ?_⟩
      · unfold actorCodeChar
        rw [if_neg (by omega), if_pos (by omega)]
      · have ht : (Char.ofNat (v + 21)).toNat = v + 21 := charToNat_ofNat (by omega)
        unfold actorCharValue
        rw [ht, if_neg (by omega), if_neg (by omega), if_pos (by omega)]
        congr 2
    · subst h
      exact ⟨'-', by decide, by decide⟩
    · subst h
      exact ⟨'_', by decide, by decide⟩
  · intro s p r c0 hsplit hl1 hl2 hp hbad
    unfold ActorId.fromStrCore
    rw [if_neg (by simp only [ActorId.MIN_LENGTH]; omega),
      if_neg (by simp only [ActorId.MAX_LENGTH]; omega), hsplit,
      encodeLoopActor_first_invalid p r zeroBuf hp hbad]
  · intro s p r c0 hsplit hl1 hl2 hhy hp hbad
    have hlen : (p ++ c0 :: r).length = (trimChars s.toList).length := by
      rw [← hsplit]
      simp
    unfold Id.fromStrCore
    rw [hsplit, if_neg (by simp only [Id.MAX_LENGTH]; omega),
      if_neg (by simp only [Id.MIN_LENGTH]; omega), if_neg hhy,
      encodeLoopId_first_invalid p r zeroBuf hp hbad]

/-- Claim C6 witness: the letter arm at `'a'`, the digit arm at `'0'`, the
inverse at code 38, and the first-invalid-character behaviour on the
concrete inputs `"id!"` (catalog, also the Rust unit test) and `"idだ"`
(actor). -/
theorem claim_C6_witness :
    actorCharValue 'a' = some (1, false) ∧ idCharValue '0' = some 27 ∧
    (∃ ch, actorCodeChar false 38 = some ch ∧ actorCharValue ch = some (38, false)) ∧
    Id.fromStrCore "id!" = .error (.InvalidCharacter '!') ∧
    ActorId.fromStrCore "idだ" = .error (.InvalidCharacter 'だ') := by
  refine ⟨?_, ?_, ?_, ?_, ?_⟩
  · exact ((claim_C6_alphabet.1 'a' (by decide) (by decide)).1)
  · exact ((claim_C6_alphabet.2.2.1 '0' (by decide) (by decide)).2.1)
  · exact (claim_C6_alphabet.2.2.2.2.2.2.1 38 (by decide) (by decide))
  · exact (claim_C6_alphabet.2.2.2.2.2.2.2.2 "id!" ['i', 'd'] [] '!'
      (by decide) (by decide) (by decide) (by decide) (by decide) (by decide))
  · exact (claim_C6_alphabet.2.2.2.2.2.2.2.1 "idだ" ['i', 'd'] [] 'だ'
      (by decide) (by decide) (by decide) (by decide) (by decide))

end Anthol
